import Mathlib

/-!
Verification development for the realtor-search repository.

The repository is a three-stage, file-based scraping pipeline:
* `RealtorScraper.scrape` (app/realtor_scraper.py) — the Collector: drives a
  browser per alphabet letter, parses realtor cards out of intercepted JSON
  payloads, deduplicates by name and writes `scraper-output-all.csv`;
* `RealtorScraperOrchestrator.agent_2_enrichment` / `agent_3_completion`
  (app/scraper.py) — the Enricher and Completer: batch rows of a CSV and call
  an external completion service, writing `personal-output.csv` and
  `final-output.csv`;
* `ChunkResults.chunk_results` (app/chunk_scraper_results.py) — the Chunker:
  splits a CSV into fixed-size sequential chunk files.

Everything below is a shallow embedding of those functions: Python lists and
dicts become Lean lists and association lists, the browser / completion
service become explicit oracle parameters, and file writes become values
describing the written content.
-/

namespace RealtorSearch

/-! ## Python-style string helpers

Small executable counterparts of the Python string operations used by the
source (`str.strip`, `str.lower`, substring membership, `str.startswith`,
`str.replace`, whitespace splitting).  All of them work over `List Char` to
keep kernel evaluation cheap.
-/

/-- `str.strip()` on a character list: drop whitespace from both ends. -/
def stripChars (cs : List Char) : List Char :=
  ((cs.dropWhile Char.isWhitespace).reverse.dropWhile Char.isWhitespace).reverse

/-- Python `s.strip()`. -/
def pyStrip (s : String) : String :=
  String.mk (stripChars s.toList)

/-- Python `s.lower()` (ASCII is all the source cares about). -/
def lowerStr (s : String) : String :=
  String.mk (s.toList.map Char.toLower)

/-- Does `pat` occur as a contiguous sublist of the argument? -/
def subOccurs (pat : List Char) : List Char → Bool
  | [] => pat.isEmpty
  | c :: rest => pat.isPrefixOf (c :: rest) || subOccurs pat rest

/-- Python `sub in s` substring membership. -/
def containsSub (s sub : String) : Bool :=
  subOccurs sub.toList s.toList

/-- Python `s.startswith(pat)`. -/
def startsWithStr (pat s : String) : Bool :=
  pat.toList.isPrefixOf s.toList

/-- One step of Python `s.replace(pat, "")`: remove every (non-overlapping,
left-to-right) occurrence of `pat`.  Fueled recursion; the fuel is always the
length of the scanned list plus one. -/
def removeSubAux (pat : List Char) : Nat → List Char → List Char
  | 0, cs => cs
  | _ + 1, [] => []
  | fuel + 1, c :: rest =>
    if pat ≠ [] ∧ pat.isPrefixOf (c :: rest) then
      removeSubAux pat fuel ((c :: rest).drop pat.length)
    else
      c :: removeSubAux pat fuel rest

/-- Python `s.replace(pat, "")`. -/
def removeSub (s pat : String) : String :=
  String.mk (removeSubAux pat.toList (s.toList.length + 1) s.toList)

/-- Whitespace word-splitting (how an HTML `class` attribute value is turned
into a class list).  Fueled recursion. -/
def splitWSAux : Nat → List Char → List String
  | 0, _ => []
  | fuel + 1, cs =>
    let cs1 := cs.dropWhile Char.isWhitespace
    match cs1 with
    | [] => []
    | _ =>
      String.mk (cs1.takeWhile (fun c => !c.isWhitespace)) ::
        splitWSAux fuel (cs1.dropWhile (fun c => !c.isWhitespace))

/-- Split a string into whitespace-separated words. -/
def splitWSpace (s : String) : List String :=
  splitWSAux (s.toList.length + 1) s.toList

/-! ## The Record data model

`realtor_scraper.py` builds each record as a dict with exactly the keys
`name`, `phone`, `email`, `website` (lines 231–236). -/

/-- A Collector record: `{"name": …, "phone": …, "email": …, "website": …}`. -/
structure Realtor where
  name : String
  phone : String
  email : String
  website : String
deriving DecidableEq, Repr

/-! ## Name-based deduplication (realtor_scraper.py lines 53–61)

```
seen_names = set()
unique_realtors = []
for r in realtors:
    if r['name'] and r['name'] not in seen_names:
        seen_names.add(r['name'])
        unique_realtors.append(r)
realtors = unique_realtors
```
-/

/-- One iteration of the dedup loop: state is `(seen_names, unique_realtors)`. -/
def dedupStep (st : List String × List Realtor) (r : Realtor) :
    List String × List Realtor :=
  if r.name ≠ "" ∧ r.name ∉ st.1 then (r.name :: st.1, st.2 ++ [r]) else st

/-- The dedup pass of `RealtorScraper.scrape` (lines 53–61): fold the loop body
over the list, starting from an empty seen-set and an empty accumulator. -/
def dedupPass (realtors : List Realtor) : List Realtor :=
  (realtors.foldl dedupStep ([], [])).2

/-- Recursive restatement of the dedup loop, convenient for induction:
`dedupAux seen l` keeps each record whose name is non-empty and not in `seen`,
threading the seen-set forward. -/
def dedupAux (seen : List String) : List Realtor → List Realtor
  | [] => []
  | r :: rs =>
    if r.name ≠ "" ∧ r.name ∉ seen then r :: dedupAux (r.name :: seen) rs
    else dedupAux seen rs

/-- Specification form of the dedup pass, written after the claim's wording:
keep the first record of each non-empty name, dropping empty-named records and
later records whose name was already kept, preserving relative order. -/
def keepFirstByName : List Realtor → List Realtor
  | [] => []
  | r :: rs =>
    if r.name = "" then keepFirstByName rs
    else r :: keepFirstByName (rs.filter (fun x => x.name != r.name))
termination_by l => l.length
decreasing_by
  · simp
  · simp only [List.length_cons]
    exact Nat.lt_succ_of_le (List.length_filter_le _ _)

/-! ## The Collector run (realtor_scraper.py lines 18–95)

`RealtorScraper.scrape` loops over the alphabet; per letter it sets up a
browser, then repeatedly appends page results (`realtors += new_realtors`)
while `_scrape_page` returns non-empty lists, and finally runs the dedup pass
over the accumulated list.  Any exception escaping this per-letter work is
caught once, at which point the handler writes a header-only CSV; control then
falls through to the unconditional save at lines 84–87, which truncates the
file again and writes the accumulated `realtors` list.

The browser and the live site are external collaborators, so a run is modelled
by its observable environment: per letter, the list of page results that were
successfully appended, plus how the letter's work ended (normally, i.e. a page
returned no records, or by an exception escaping to the outer handler).
-/

/-- How one letter iteration ends: normally, or with an exception escaping to
`scrape`'s outer `except` handler. -/
inductive LetterEnd where
  | normal
  | raised
deriving DecidableEq, Repr

/-- The observable behaviour of one letter iteration: the page results
appended by the `while` loop before the letter ended, and how it ended. -/
structure LetterEnv where
  pages : List (List Realtor)
  ends : LetterEnd
deriving DecidableEq, Repr

/-- The accumulator loop of `scrape`: returns the final `realtors` list (the
rows passed to the unconditional save at lines 84–87) and whether the run hit
the exception handler.  On a normal letter the accumulated list is deduplicated
(lines 53–61); on an exception the loop stops with the raw accumulated list. -/
def scrapeRun : List Realtor → List LetterEnv → List Realtor × Bool
  | acc, [] => (acc, false)
  | acc, e :: es =>
    let acc1 := acc ++ e.pages.flatten
    match e.ends with
    | LetterEnd.raised => (acc1, true)
    | LetterEnd.normal => scrapeRun (dedupPass acc1) es

/-- The rows written by the final save of `RealtorScraper.scrape`. -/
def scrapeRows (envs : List LetterEnv) : List Realtor :=
  (scrapeRun [] envs).1

/-- Whether the run reached the `except` handler (lines 69–76). -/
def scrapeRaised (envs : List LetterEnv) : Bool :=
  (scrapeRun [] envs).2

/-- The CSV header used for `scraper-output-all.csv` (lines 75 and 85). -/
def scraperHeader : List String :=
  ["name", "phone", "email", "website"]

/-- The content of one write of `scraper-output-all.csv`. -/
structure CsvFile where
  header : List String
  rows : List Realtor
deriving DecidableEq, Repr

/-- The successive writes of `scraper-output-all.csv` during one run: the
exception handler writes a header-only file (lines 74–76), and the
unconditional save (lines 84–87) always writes the accumulated rows. -/
def scrapeWrites (envs : List LetterEnv) : List CsvFile :=
  if scrapeRaised envs then
    [⟨scraperHeader, []⟩, ⟨scraperHeader, scrapeRows envs⟩]
  else
    [⟨scraperHeader, scrapeRows envs⟩]

/-- The file `scrape` leaves behind: the last write wins. -/
def scrapeFinalCsv (envs : List LetterEnv) : CsvFile :=
  ⟨scraperHeader, scrapeRows envs⟩

/-- All records the environment ever fed into the accumulator (the parsed
records delivered by `_scrape_page`, which are the per-card records kept by
`_extract_realtors_from_json`). -/
def allAppended (envs : List LetterEnv) : List Realtor :=
  (envs.map (fun e => e.pages.flatten)).flatten

/-! ## The Chunker (chunk_scraper_results.py lines 13–56)

```
num_chunks = (len(all_rows) + self.chunk_size - 1) // self.chunk_size
for chunk_idx in range(num_chunks):
    start_idx = chunk_idx * self.chunk_size
    end_idx = min(start_idx + self.chunk_size, len(all_rows))
    chunk_rows = all_rows[start_idx:end_idx]
    chunk_filename = f"chunk-{chunk_idx + 1}.csv"
    # write header (fieldnames) + chunk_rows
```
Rows are opaque to the chunker, so it is embedded generically in the row type.
-/

/-- One written chunk file: its name, the header copied from the source CSV,
and its data rows. -/
structure ChunkFile (α : Type) where
  filename : String
  header : List String
  rows : List α
deriving DecidableEq, Repr

/-- The slice of rows that goes into chunk `i` (Python `all_rows[start:end]`
with `end = min(start + chunk_size, len(all_rows))`). -/
def chunkSlice (chunkSize : Nat) (allRows : List α) (i : Nat) : List α :=
  (allRows.drop (i * chunkSize)).take
    (min (i * chunkSize + chunkSize) allRows.length - i * chunkSize)

/-- The rows of all chunk files, in file order. -/
def chunkSlices (chunkSize : Nat) (allRows : List α) : List (List α) :=
  (List.range ((allRows.length + chunkSize - 1) / chunkSize)).map
    (chunkSlice chunkSize allRows)

/-- `ChunkResults.chunk_results`: split the input rows into
`(N + S - 1) // S` sequential chunk files, each carrying the source header and
named `chunk-<i+1>.csv`. -/
def chunk_results (chunkSize : Nat) (fieldnames : List String)
    (allRows : List α) : List (ChunkFile α) :=
  (List.range ((allRows.length + chunkSize - 1) / chunkSize)).map
    (fun i =>
      { filename := "chunk-" ++ toString (i + 1) ++ ".csv"
        header := fieldnames
        rows := chunkSlice chunkSize allRows i })

/-! ## CSV rows as dicts (scraper.py agents 2 and 3)

`csv.DictReader` yields each row as a dict; the agents read, filter and
amend those dicts.  A dict is embedded as an association list looked up by
first match; Python's in-place `r[k] = v` keeps the key's position when the
key exists and appends the key otherwise. -/

/-- A CSV row: a Python dict from column name to cell value. -/
abbrev Row := List (String × String)

/-- Python `r.get(k, default)`. -/
def dictGet (r : Row) (k default : String) : String :=
  match r.find? (fun p => p.1 == k) with
  | some p => p.2
  | none => default

/-- Python `k in r`. -/
def hasKey (r : Row) (k : String) : Bool :=
  r.any (fun p => p.1 == k)

/-- Python `r[k] = v`: replace in place when the key exists, append otherwise. -/
def dictSet (r : Row) (k v : String) : Row :=
  if hasKey r k then r.map (fun p => if p.1 == k then (k, v) else p)
  else r ++ [(k, v)]

/-- The Enricher's selection filter (scraper.py lines 151–154):
`not r.get("email", "").strip() and r.get("website", "").strip()`. -/
def needsEnrichment (r : Row) : Bool :=
  pyStrip (dictGet r "email" "") == "" && pyStrip (dictGet r "website" "") != ""

/-- The Completer's selection filter (scraper.py line 242):
`not r.get("email", "").strip()`. -/
def needsCompletion (r : Row) : Bool :=
  pyStrip (dictGet r "email" "") == ""

/-- The outcome of one batch call to the external completion service: the
extracted text of the response, or an exception message.  The agents catch
any exception per batch and only log it. -/
abbrev ServiceOracle := Nat → Except String String

/-- The per-batch diagnostic files an agent writes under `scraper-found/`:
for each batch index whose service call succeeded, the response text.
The batch loop slices the selected rows exactly like the chunker
(`total_batches = (len + batch_size - 1) // batch_size`). -/
def agentBatchLog (batchSize : Nat) (selected : List Row)
    (responses : ServiceOracle) : List (Nat × String) :=
  (List.range ((selected.length + batchSize - 1) / batchSize)).filterMap
    (fun i =>
      match responses i with
      | Except.ok txt => some (i, txt)
      | Except.error _ => none)

/-- `RealtorScraperOrchestrator.agent_2_enrichment` (scraper.py lines 137–226):
returns the rows written to `personal-output.csv` together with the per-batch
diagnostic log.  When no row needs enrichment the rows are copied with
`extra_emails` set to `""`; otherwise the batches are sent to the service (the
answers land only in the diagnostic log) and the rows are written with
`extra_emails` defaulted to `""` where absent. -/
def agent_2_enrichment (batchSize : Nat) (rows : List Row)
    (responses : ServiceOracle) : List Row × List (Nat × String) :=
  let realtorsToEnrich := rows.filter needsEnrichment
  if realtorsToEnrich.length = 0 then
    (rows.map (fun r => dictSet r "extra_emails" ""), [])
  else
    (rows.map (fun r => if hasKey r "extra_emails" then r else dictSet r "extra_emails" ""),
     agentBatchLog batchSize realtorsToEnrich responses)

/-- `RealtorScraperOrchestrator.agent_3_completion` (scraper.py lines 228–318):
returns the rows written to `final-output.csv` together with the per-batch
diagnostic log.  When no row needs completion the rows are copied with
`confidence` set to `"1.0"`; otherwise the batches are sent to the service
(the answers land only in the diagnostic log) and the rows are written with
`confidence` defaulted to `"1.0"` where absent. -/
def agent_3_completion (batchSize : Nat) (rows : List Row)
    (responses : ServiceOracle) : List Row × List (Nat × String) :=
  let realtorsToComplete := rows.filter needsCompletion
  if realtorsToComplete.length = 0 then
    (rows.map (fun r => dictSet r "confidence" "1.0"), [])
  else
    (rows.map (fun r => if hasKey r "confidence" then r else dictSet r "confidence" "1.0"),
     agentBatchLog batchSize realtorsToComplete responses)

/-- The header of the Enricher / Completer input CSVs. -/
def enricherHeader : List String :=
  ["name", "phone", "email", "website", "extra_emails"]

/-! ## The orchestrator run (scraper.py lines 320–359)

After `agent_1_selenium_scraper` returns, `run` rebinds `scraper_output`,
leaves the `agent_2_enrichment` / `agent_3_completion` calls commented out,
and prints a summary referencing the local variables `scraper_output`,
`enrichment_output` and `final_output` in that order.  Referencing an unbound
local raises `NameError`; the `except` clause prints the error and re-raises
it. -/

/-- A Python exception, as far as `run` is concerned. -/
inductive PyErr where
  | nameError (var : String)
  | other (msg : String)
deriving DecidableEq, Repr

/-- Reading a local variable: the environment lists bindings newest first. -/
def evalRef (env : List (String × String)) (x : String) : Except PyErr String :=
  match env.find? (fun p => p.1 == x) with
  | some p => Except.ok p.2
  | none => Except.error (PyErr.nameError x)

/-- The `try` body of `RealtorScraperOrchestrator.run`: bind agent 1's result,
rebind `scraper_output` to `"scraper-output.csv"` (line 336), then evaluate the
summary's variable references in print order (lines 351–353). -/
def runTryBody (agent1 : Except PyErr String) : Except PyErr Unit := do
  let out ← agent1
  let env := [("scraper_output", "scraper-output.csv"), ("scraper_output", out)]
  let _ ← evalRef env "scraper_output"
  let _ ← evalRef env "enrichment_output"
  let _ ← evalRef env "final_output"
  Except.ok ()

/-- `RealtorScraperOrchestrator.run`: the `except` clause prints the error and
re-raises it, so the body's exception propagates to the caller. -/
def orchestratorRun (agent1 : Except PyErr String) : Except PyErr Unit :=
  match runTryBody agent1 with
  | Except.ok u => Except.ok u
  | Except.error e => Except.error e

/-! ## HTML fragments and the fragment parser
(realtor_scraper.py lines 187–267)

`_extract_realtors_from_json` hands the payload's HTML string to
BeautifulSoup and then works purely through the soup's query interface.  The
DOM is embedded as a tree of elements and text; the builder
(`parseHtmlFragment`) is a small parser for the plain open-tag /
double-quoted-attribute / text / close-tag fragments the endpoint returns. -/

/-- A DOM node: an element with tag, attributes and children, or a text run. -/
inductive Node where
  | elem (tag : String) (attrs : List (String × String)) (children : List Node)
  | text (s : String)
deriving Repr

mutual
/-- Structural equality of nodes (BeautifulSoup's `==` on tags). -/
def nodeBeq : Node → Node → Bool
  | Node.text a, Node.text b => a == b
  | Node.elem t a c, Node.elem u b d => t == u && a == b && nodeListBeq c d
  | _, _ => false
/-- Structural equality of node lists. -/
def nodeListBeq : List Node → List Node → Bool
  | [], [] => true
  | x :: xs, y :: ys => nodeBeq x y && nodeListBeq xs ys
  | _, _ => false
end

instance : BEq Node := ⟨nodeBeq⟩

mutual
/-- All element nodes of a subtree in document (preorder) position,
the subtree's own root included when it is an element. -/
def elemsOfNode : Node → List Node
  | Node.text _ => []
  | Node.elem t a c => Node.elem t a c :: elemsOfList c
/-- All element nodes under a forest, in document order. -/
def elemsOfList : List Node → List Node
  | [] => []
  | n :: ns => elemsOfNode n ++ elemsOfList ns
end

mutual
/-- The text runs of a subtree in document order. -/
def textsOfNode : Node → List String
  | Node.text s => [s]
  | Node.elem _ _ c => textsOfList c
/-- The text runs of a forest in document order. -/
def textsOfList : List Node → List String
  | [] => []
  | n :: ns => textsOfNode n ++ textsOfList ns
end

/-- Children of a node (text runs have none). -/
def childrenOf : Node → List Node
  | Node.elem _ _ c => c
  | Node.text _ => []

/-- Tag name of an element. -/
def tagOf : Node → Option String
  | Node.elem t _ _ => some t
  | Node.text _ => none

/-- Attribute lookup on an element. -/
def attrOf (n : Node) (k : String) : Option String :=
  match n with
  | Node.elem _ attrs _ => (attrs.find? (fun p => p.1 == k)).map Prod.snd
  | Node.text _ => none

/-- The CSS classes of a node: the whitespace-split `class` attribute
(a node without the attribute has none, so a `class_` function filter —
which Python hands `None` — never matches it). -/
def classesOf (n : Node) : List String :=
  match attrOf n "class" with
  | some v => splitWSpace v
  | none => []

/-- BeautifulSoup `get_text(strip=True)`: strip each text run, drop the ones
that become empty, and concatenate. -/
def getTextStrip (n : Node) : String :=
  (((textsOfNode n).map pyStrip).filter (fun s => s != "")).foldl
    (fun a b => a ++ b) ""

/-- `soup.find_all(class_=p)`: every element, in document order, one of whose
classes satisfies `p`. -/
def findAllByClassPred (roots : List Node) (p : String → Bool) : List Node :=
  (elemsOfList roots).filter (fun n => (classesOf n).any p)

/-- `soup.find_all(tag, class_=cls)`: every element with that tag carrying
class `cls`. -/
def findAllByTagClass (roots : List Node) (tag cls : String) : List Node :=
  (elemsOfList roots).filter
    (fun n => tagOf n == some tag && (classesOf n).contains cls)

/-- `card.find(tag, class_=cls)`: the first descendant of `card` (the card
itself excluded) with that tag carrying class `cls`. -/
def findDescTagClass (card : Node) (tag cls : String) : Option Node :=
  (elemsOfList (childrenOf card)).find?
    (fun n => tagOf n == some tag && (classesOf n).contains cls)

/-- `card.find(tag, href=lambda x: x and x.startswith(pat))`: the first
descendant with that tag whose `href` starts with `pat` (an absent `href`
hands the lambda `None`, which never matches). -/
def findDescHref (card : Node) (tag pat : String) : Option Node :=
  (elemsOfList (childrenOf card)).find?
    (fun n => tagOf n == some tag &&
      (match attrOf n "href" with
       | some h => startsWithStr pat h
       | none => false))

mutual
/-- The ancestors of `target` inside a subtree, nearest first, when `target`
occurs in the subtree. -/
def ancChainNode (target : Node) : Node → Option (List Node)
  | Node.text s =>
    if nodeBeq (Node.text s) target then some [] else none
  | Node.elem t a c =>
    if nodeBeq (Node.elem t a c) target then some []
    else (ancChainList target c).map (fun l => l ++ [Node.elem t a c])
/-- The ancestors of `target` inside a forest, nearest first. -/
def ancChainList (target : Node) : List Node → Option (List Node)
  | [] => none
  | n :: ns =>
    match ancChainNode target n with
    | some l => some l
    | none => ancChainList target ns
end

/-- `target.find_parent(tags)`: the nearest ancestor whose tag is in `tags`. -/
def findParentTags (roots : List Node) (target : Node) (tags : List String) :
    Option Node :=
  match ancChainList target roots with
  | some chain =>
    chain.find?
      (fun n =>
        match tagOf n with
        | some t => tags.contains t
        | none => false)
  | none => none

/-- The class filter of line 215:
`lambda x: x and ('realtor' in x.lower() or 'card' in x.lower())`. -/
def bsRealtorCardPred (cls : String) : Bool :=
  containsSub (lowerStr cls) "realtor" || containsSub (lowerStr cls) "card"

/-- The fallback card search of lines 218–225: group `realtorCardName` spans
by their nearest `div`/`article`/`li`/`section` parent, skipping parents
already collected. -/
def fallbackCards (roots : List Node) : List Node :=
  (findAllByTagClass roots "span" "realtorCardName").foldl
    (fun acc ne =>
      match findParentTags roots ne ["div", "article", "li", "section"] with
      | some card => if acc.contains card then acc else acc ++ [card]
      | none => acc) []

/-- The realtor cards of a soup (lines 213–225): the class-predicate search,
falling back to the parent-of-name-span heuristic when it finds nothing. -/
def soupCards (roots : List Node) : List Node :=
  let cards := findAllByClassPred roots bsRealtorCardPred
  if cards.isEmpty then fallbackCards roots else cards

/-- Per-card field extraction (lines 230–261): `name` from the
`realtorCardName` span, `phone` from the `TelephoneNumber` span with a
`tel:`-link fallback, `website` from the `realtorCardWebsite` link, `email`
from a visible `mailto:` link. -/
def cardToRealtor (card : Node) : Realtor :=
  let nm :=
    match findDescTagClass card "span" "realtorCardName" with
    | some e => getTextStrip e
    | none => ""
  let ph :=
    match findDescTagClass card "span" "TelephoneNumber" with
    | some e => getTextStrip e
    | none =>
      match findDescHref card "a" "tel:" with
      | some e => pyStrip (removeSub ((attrOf e "href").getD "") "tel:")
      | none => ""
  let ws :=
    match findDescTagClass card "a" "realtorCardWebsite" with
    | some e => pyStrip ((attrOf e "href").getD "")
    | none => ""
  let em :=
    match findDescHref card "a" "mailto:" with
    | some e => pyStrip (removeSub ((attrOf e "href").getD "") "mailto:")
    | none => ""
  { name := nm, phone := ph, email := em, website := ws }

/-- Attribute list parser: whitespace-separated `key="value"` pairs, stopping
after the tag's closing `>`. -/
def parseAttrsAux : Nat → List Char → List (String × String) × List Char
  | 0, cs => ([], cs)
  | _ + 1, [] => ([], [])
  | fuel + 1, c :: cs =>
    if c == '>' then ([], cs)
    else if c.isWhitespace then parseAttrsAux fuel cs
    else
      let isNameChar := fun (d : Char) => !(d == '=') && !(d == '>') && !d.isWhitespace
      let nm := (c :: cs).takeWhile isNameChar
      let r1 := (c :: cs).dropWhile isNameChar
      match r1 with
      | '=' :: '"' :: r2 =>
        let v := r2.takeWhile (fun d => !(d == '"'))
        let r3 := (r2.dropWhile (fun d => !(d == '"'))).drop 1
        let pr := parseAttrsAux fuel r3
        ((String.mk nm, String.mk v) :: pr.1, pr.2)
      | _ => ([], r1)

/-- Fragment parser: a sibling list of elements (with matched close tags) and
text runs.  Stops in front of a close tag so the caller can consume it. -/
def parseNodesAux : Nat → List Char → List Node × List Char
  | 0, cs => ([], cs)
  | _ + 1, [] => ([], [])
  | _ + 1, '<' :: '/' :: cs => ([], '<' :: '/' :: cs)
  | fuel + 1, '<' :: cs =>
    let isTagChar := fun (d : Char) => !(d == '>') && !d.isWhitespace
    let tag := cs.takeWhile isTagChar
    let r0 := cs.dropWhile isTagChar
    let pa := parseAttrsAux fuel r0
    let pc := parseNodesAux fuel pa.2
    let r3 := (pc.2.dropWhile (fun d => !(d == '>'))).drop 1
    let ps := parseNodesAux fuel r3
    (Node.elem (String.mk tag) pa.1 pc.1 :: ps.1, ps.2)
  | fuel + 1, c :: cs =>
    let txt := (c :: cs).takeWhile (fun d => !(d == '<'))
    let r0 := (c :: cs).dropWhile (fun d => !(d == '<'))
    let ps := parseNodesAux fuel r0
    (Node.text (String.mk txt) :: ps.1, ps.2)

/-- `BeautifulSoup(html, "html.parser")`: the soup's root forest. -/
def parseHtmlFragment (s : String) : List Node :=
  (parseNodesAux (s.toList.length + 1) s.toList).1

/-- A JSON-decoded Python value, as far as the extractor inspects it. -/
inductive PyVal where
  | pystr (s : String)
  | pydict (entries : List (String × PyVal))
  | pyother
deriving Repr

/-- The candidate payload fields searched for HTML (line 202). -/
def candidateHtmlKeys : List String :=
  ["d", "html", "content", "result", "data"]

/-- Lines 199–207: the first candidate key whose value is a string that looks
like HTML (contains both `<` and `>`). -/
def findHtmlContent (entries : List (String × PyVal)) : Option String :=
  candidateHtmlKeys.findSome?
    (fun k =>
      match (entries.find? (fun p => p.1 == k)).map Prod.snd with
      | some (PyVal.pystr s) =>
        if containsSub s "<" && containsSub s ">" then some s else none
      | _ => none)

/-- `RealtorScraper._extract_realtors_from_json` (lines 187–267): locate the
HTML payload field, parse it, collect cards, extract one record per card and
keep exactly those whose name is non-empty. -/
def extract_realtors_from_json (data : PyVal) : List Realtor :=
  match data with
  | PyVal.pydict entries =>
    match findHtmlContent entries with
    | some html =>
      ((soupCards (parseHtmlFragment html)).map cardToRealtor).filter
        (fun r => r.name != "")
    | none => []
  | _ => []

/-! ## Concrete inputs used by witnesses and counterexamples -/

/-- The captured payload of claim C4. -/
def payloadC4 : PyVal :=
  PyVal.pydict
    [("d", PyVal.pystr "<div class=\"realtorCard\"><span class=\"realtorCardName\">Jane Doe</span><span class=\"TelephoneNumber\">555-1234</span></div>")]

/-- A captured payload with two cards sharing one name. -/
def payloadDupName : PyVal :=
  PyVal.pydict
    [("d", PyVal.pystr "<div class=\"realtorCard\"><span class=\"realtorCardName\">Jane Doe</span><span class=\"TelephoneNumber\">555-1111</span></div><div class=\"realtorCard\"><span class=\"realtorCardName\">Jane Doe</span><span class=\"TelephoneNumber\">555-2222</span></div>")]

/-- The record parsed from the C4 payload. -/
def janeDoe : Realtor :=
  { name := "Jane Doe", phone := "555-1234", email := "", website := "" }

/-- First record of the duplicate-name payload. -/
def janeA : Realtor :=
  { name := "Jane Doe", phone := "555-1111", email := "", website := "" }

/-- Second record of the duplicate-name payload. -/
def janeB : Realtor :=
  { name := "Jane Doe", phone := "555-2222", email := "", website := "" }

/-- A run whose first letter appends one page and then hits an exception. -/
def envsPartial : List LetterEnv :=
  [{ pages := [[janeDoe]], ends := LetterEnd.raised }]

/-- A run whose first letter appends a page with a repeated record and then
hits an exception before the per-letter dedup pass. -/
def envsDupRaised : List LetterEnv :=
  [{ pages := [[janeDoe, janeDoe]], ends := LetterEnd.raised }]

/-- A normal run over one letter whose single page holds two records sharing
one name. -/
def envsDupNormal : List LetterEnv :=
  [{ pages := [[janeA, janeB]], ends := LetterEnd.normal }]

/-- An input row selected for enrichment: no email, but a website. -/
def rowJane : Row :=
  [("name", "Jane Doe"), ("phone", "555-1234"), ("email", ""),
   ("website", "https://janedoe.example")]

/-- A free-text service answer naming an email for the enrichment candidate. -/
def respFoundText : String :=
  "name,phone,email,website,extra_emails\nJane Doe,555-1234,jane@janedoe.example,https://janedoe.example,"

/-- A service oracle whose every batch call succeeds with that answer. -/
def respFound : ServiceOracle :=
  fun _ => Except.ok respFoundText

/-- An input row for the Completer with the five Enricher output columns. -/
def rowJane5 : Row :=
  [("name", "Jane Doe"), ("phone", "555-1234"), ("email", ""),
   ("website", "https://janedoe.example"), ("extra_emails", "")]

theorem foldl_dedupStep (l : List Realtor) (seen : List String)
    (acc : List Realtor) :
    l.foldl dedupStep (seen, acc) = ((l.foldl dedupStep (seen, acc)).1, acc ++ dedupAux seen l) := by
  induction l generalizing seen acc with
  | nil => simp [dedupAux]
  | cons r rs ih =>
    simp only [List.foldl_cons, dedupStep, dedupAux]
    by_cases h : r.name ≠ "" ∧ r.name ∉ seen
    · simp only [if_pos h]
      rw [ih]
      simp
    · simp only [if_neg h]
      exact ih seen acc

/-- The fold-based dedup pass agrees with the recursive form. -/
theorem dedupPass_eq_dedupAux (l : List Realtor) :
    dedupPass l = dedupAux [] l := by
  unfold dedupPass
  rw [foldl_dedupStep]
  simp

/-- Every record kept by the dedup loop has a non-empty name. -/
theorem dedupAux_name_ne_empty {seen : List String} {l : List Realtor}
    {r : Realtor} (h : r ∈ dedupAux seen l) : r.name ≠ "" := by
  induction l generalizing seen with
  | nil => simp [dedupAux] at h
  | cons a as ih =>
    simp only [dedupAux] at h
    by_cases hc : a.name ≠ "" ∧ a.name ∉ seen
    · rw [if_pos hc] at h
      rcases List.mem_cons.mp h with h1 | h2
      · subst h1; exact hc.1
      · exact ih h2
    · rw [if_neg hc] at h
      exact ih h

/-- No kept record's name lies in the initial seen-set. -/
theorem dedupAux_name_not_seen {seen : List String} {l : List Realtor}
    {r : Realtor} (h : r ∈ dedupAux seen l) : r.name ∉ seen := by
  induction l generalizing seen with
  | nil => simp [dedupAux] at h
  | cons a as ih =>
    simp only [dedupAux] at h
    by_cases hc : a.name ≠ "" ∧ a.name ∉ seen
    · rw [if_pos hc] at h
      rcases List.mem_cons.mp h with h1 | h2
      · subst h1; exact hc.2
      · intro hmem
        exact ih h2 (List.mem_cons_of_mem _ hmem)
    · rw [if_neg hc] at h
      exact ih h

/-- The kept records carry pairwise-distinct names: their name list is `Nodup`. -/
theorem dedupAux_names_nodup (seen : List String) (l : List Realtor) :
    ((dedupAux seen l).map Realtor.name).Nodup := by
  induction l generalizing seen with
  | nil => simp [dedupAux]
  | cons a as ih =>
    simp only [dedupAux]
    by_cases hc : a.name ≠ "" ∧ a.name ∉ seen
    · rw [if_pos hc]
      simp only [List.map_cons, List.nodup_cons]
      refine ⟨?_, ih (a.name :: seen)⟩
      intro hmem
      rcases List.mem_map.mp hmem with ⟨r, hr, hname⟩
      exact dedupAux_name_not_seen hr (hname ▸ List.mem_cons_self _ _)
    · rw [if_neg hc]
      exact ih seen

/-- The dedup loop only reads the seen-set through membership, so
membership-equivalent seen-sets give the same result. -/
theorem dedupAux_seen_congr {seen1 seen2 : List String}
    (h : ∀ x, x ∈ seen1 ↔ x ∈ seen2) (l : List Realtor) :
    dedupAux seen1 l = dedupAux seen2 l := by
  induction l generalizing seen1 seen2 with
  | nil => rfl
  | cons a as ih =>
    simp only [dedupAux]
    by_cases hc : a.name ≠ "" ∧ a.name ∉ seen1
    · rw [if_pos hc, if_pos ⟨hc.1, fun hm => hc.2 ((h a.name).mpr hm)⟩]
      refine congrArg _ (ih ?_)
      intro x
      simp only [List.mem_cons]
      exact or_congr Iff.rfl (h x)
    · rw [if_neg hc, if_neg ?_]
      · exact ih h
      · intro hc2
        exact hc ⟨hc2.1, fun hm => hc2.2 ((h a.name).mp hm)⟩

/-- Idempotence at the recursive level: re-running the dedup loop over its own
output (with the same initial seen-set) changes nothing. -/
theorem dedupAux_idem (seen : List String) (l : List Realtor) :
    dedupAux seen (dedupAux seen l) = dedupAux seen l := by
  induction l generalizing seen with
  | nil => rfl
  | cons a as ih =>
    simp only [dedupAux]
    by_cases hc : a.name ≠ "" ∧ a.name ∉ seen
    · rw [if_pos hc]
      simp only [dedupAux, if_pos hc]
      exact congrArg _ (ih (a.name :: seen))
    · rw [if_neg hc]
      exact ih seen

/-- The dedup output is a sublist of the input (order-preserving selection). -/
theorem dedupAux_sublist (seen : List String) (l : List Realtor) :
    (dedupAux seen l).Sublist l := by
  induction l generalizing seen with
  | nil => simp [dedupAux]
  | cons a as ih =>
    simp only [dedupAux]
    by_cases hc : a.name ≠ "" ∧ a.name ∉ seen
    · rw [if_pos hc]
      exact List.Sublist.cons₂ a (ih (a.name :: seen))
    · rw [if_neg hc]
      exact List.Sublist.cons a (ih seen)

/-- Seeding the seen-set with `n` is the same as pre-filtering records named
`n` away. -/
theorem dedupAux_filter_ne (n : String) (seen : List String) (l : List Realtor) :
    dedupAux seen (l.filter (fun r => r.name != n)) = dedupAux (n :: seen) l := by
  induction l generalizing seen with
  | nil => rfl
  | cons r rs ih =>
    by_cases hrn : r.name = n
    · have hdrop : (r :: rs).filter (fun r => r.name != n) =
          rs.filter (fun r => r.name != n) := by
        simp [List.filter_cons, hrn]
      rw [hdrop, ih seen]
      have : ¬ (r.name ≠ "" ∧ r.name ∉ n :: seen) := by
        intro hc
        exact hc.2 (hrn ▸ List.mem_cons_self _ _)
      simp only [dedupAux, if_neg this]
    · have hkeep : (r :: rs).filter (fun r => r.name != n) =
          r :: rs.filter (fun r => r.name != n) := by
        simp [List.filter_cons, hrn]
      rw [hkeep]
      simp only [dedupAux]
      by_cases hc : r.name ≠ "" ∧ r.name ∉ seen
      · rw [if_pos hc, if_pos ⟨hc.1, by
          simp only [List.mem_cons, not_or]
          exact ⟨hrn, hc.2⟩⟩]
        refine congrArg _ ?_
        rw [ih (r.name :: seen)]
        refine dedupAux_seen_congr (fun x => ?_) rs
        simp only [List.mem_cons]
        tauto
      · rw [if_neg hc, if_neg (by
          intro hc2
          refine hc ⟨hc2.1, fun hm => hc2.2 (List.mem_cons_of_mem _ hm)⟩)]
        exact ih seen

/-- The dedup loop started on an empty seen-set computes the
first-occurrence-per-non-empty-name subsequence. -/
theorem dedupAux_nil_eq_keepFirst (l : List Realtor) :
    dedupAux [] l = keepFirstByName l := by
  match l with
  | [] => simp [dedupAux, keepFirstByName]
  | r :: rs =>
    simp only [dedupAux, keepFirstByName]
    by_cases hr : r.name = ""
    · rw [if_neg (by simp [hr]), if_pos hr]
      exact dedupAux_nil_eq_keepFirst rs
    · rw [if_pos ⟨hr, by simp⟩, if_neg hr]
      refine congrArg _ ?_
      calc dedupAux [r.name] rs
          = dedupAux [] (rs.filter (fun x => x.name != r.name)) :=
            (dedupAux_filter_ne r.name [] rs).symm
        _ = keepFirstByName (rs.filter (fun x => x.name != r.name)) :=
            dedupAux_nil_eq_keepFirst _
termination_by l.length
decreasing_by
  · simp
  · simp only [List.length_cons]
    exact Nat.lt_succ_of_le (List.length_filter_le _ _)

/-- A non-empty name occurs among the dedup output's names exactly when it is
unseen and occurs among the input's names. -/
theorem dedupAux_exists_name (n : String) (hn : n ≠ "") (seen : List String)
    (l : List Realtor) :
    (∃ r ∈ dedupAux seen l, r.name = n) ↔
      (n ∉ seen ∧ ∃ r ∈ l, r.name = n) := by
  induction l generalizing seen with
  | nil => simp [dedupAux]
  | cons r rs ih =>
    simp only [dedupAux]
    by_cases hc : r.name ≠ "" ∧ r.name ∉ seen
    · rw [if_pos hc]
      by_cases hrn : r.name = n
      · constructor
        · intro _
          exact ⟨hrn ▸ hc.2, r, List.mem_cons_self _ _, hrn⟩
        · intro _
          exact ⟨r, List.mem_cons_self _ _, hrn⟩
      · constructor
        · rintro ⟨x, hx, hxn⟩
          rcases List.mem_cons.mp hx with h1 | h2
          · exact absurd (h1 ▸ hxn) hrn
          · have := (ih (r.name :: seen)).mp ⟨x, h2, hxn⟩
            refine ⟨fun hm => this.1 (List.mem_cons_of_mem _ hm), ?_⟩
            rcases this.2 with ⟨y, hy, hyn⟩
            exact ⟨y, List.mem_cons_of_mem _ hy, hyn⟩
        · rintro ⟨hns, x, hx, hxn⟩
          rcases List.mem_cons.mp hx with h1 | h2
          · exact absurd (h1 ▸ hxn) hrn
          · have := (ih (r.name :: seen)).mpr
              ⟨by
                simp only [List.mem_cons, not_or]
                exact ⟨fun h => hrn h.symm, hns⟩, x, h2, hxn⟩
            rcases this with ⟨y, hy, hyn⟩
            exact ⟨y, List.mem_cons_of_mem _ hy, hyn⟩
    · rw [if_neg hc]
      rw [ih seen]
      constructor
      · rintro ⟨hns, x, hx, hxn⟩
        exact ⟨hns, x, List.mem_cons_of_mem _ hx, hxn⟩
      · rintro ⟨hns, x, hx, hxn⟩
        refine ⟨hns, ?_⟩
        rcases List.mem_cons.mp hx with h1 | h2
        · exfalso
          have hrn : r.name = n := by rw [← h1]; exact hxn
          rcases not_and_or.mp hc with h3 | h3
          · have hre : r.name = "" := not_not.mp h3
            exact hn (by rw [← hrn]; exact hre)
          · have hrs : r.name ∈ seen := not_not.mp h3
            rw [hrn] at hrs
            exact hns hrs
        · exact ⟨x, h2, hxn⟩

/-- `dedupPass` keeps only records with non-empty names. -/
theorem dedupPass_mem_name_ne {l : List Realtor} {r : Realtor}
    (h : r ∈ dedupPass l) : r.name ≠ "" := by
  rw [dedupPass_eq_dedupAux] at h
  exact dedupAux_name_ne_empty h

/-- The names in a `dedupPass` output are pairwise distinct. -/
theorem dedupPass_names_nodup (l : List Realtor) :
    ((dedupPass l).map Realtor.name).Nodup := by
  rw [dedupPass_eq_dedupAux]
  exact dedupAux_names_nodup [] l

/-- `dedupPass` preserves which non-empty names occur. -/
theorem dedupPass_exists_name (n : String) (hn : n ≠ "") (l : List Realtor) :
    (∃ r ∈ dedupPass l, r.name = n) ↔ (∃ r ∈ l, r.name = n) := by
  rw [dedupPass_eq_dedupAux]
  rw [dedupAux_exists_name n hn [] l]
  simp

/-- `dedupPass` is idempotent. -/
theorem dedupPass_idem (l : List Realtor) :
    dedupPass (dedupPass l) = dedupPass l := by
  rw [dedupPass_eq_dedupAux, dedupPass_eq_dedupAux, dedupAux_idem]

/-- `dedupPass` output is an order-preserving selection from its input. -/
theorem dedupPass_sublist (l : List Realtor) : (dedupPass l).Sublist l := by
  rw [dedupPass_eq_dedupAux]
  exact dedupAux_sublist [] l

/-- Unfolding `scrapeRun` on a letter that ends in an exception. -/
theorem scrapeRun_cons_raised (acc : List Realtor) (e : LetterEnv)
    (es : List LetterEnv) (h : e.ends = LetterEnd.raised) :
    scrapeRun acc (e :: es) = (acc ++ e.pages.flatten, true) := by
  unfold scrapeRun
  rw [h]

/-- Unfolding `scrapeRun` on a letter that ends normally. -/
theorem scrapeRun_cons_normal (acc : List Realtor) (e : LetterEnv)
    (es : List LetterEnv) (h : e.ends = LetterEnd.normal) :
    scrapeRun acc (e :: es) = scrapeRun (dedupPass (acc ++ e.pages.flatten)) es := by
  conv_lhs => unfold scrapeRun
  rw [h]

/-- In a run that never hits the exception handler, the final row list has
pairwise-distinct, non-empty names whenever the starting accumulator does. -/
theorem scrapeRun_no_raise_names_ok (envs : List LetterEnv) :
    ∀ acc : List Realtor, (scrapeRun acc envs).2 = false →
      ((acc.map Realtor.name).Nodup ∧ ∀ r ∈ acc, r.name ≠ "") →
      (((scrapeRun acc envs).1.map Realtor.name).Nodup ∧
        ∀ r ∈ (scrapeRun acc envs).1, r.name ≠ "") := by
  induction envs with
  | nil =>
    intro acc _ hacc
    exact hacc
  | cons e es ih =>
    intro acc h hacc
    cases he : e.ends with
    | raised =>
      rw [scrapeRun_cons_raised acc e es he] at h
      simp at h
    | normal =>
      rw [scrapeRun_cons_normal acc e es he] at h ⊢
      exact ih _ h ⟨dedupPass_names_nodup _, fun r hr => dedupPass_mem_name_ne hr⟩

/-- Unfolding `allAppended` over a cons. -/
theorem allAppended_cons (e : LetterEnv) (es : List LetterEnv) :
    allAppended (e :: es) = e.pages.flatten ++ allAppended es := by
  simp [allAppended]

/-- In a run that never hits the exception handler, a non-empty name occurs in
the final row list iff it occurs in the starting accumulator or in some
appended page. -/
theorem scrapeRun_no_raise_names (envs : List LetterEnv) :
    ∀ (acc : List Realtor) (n : String), n ≠ "" →
      (scrapeRun acc envs).2 = false →
      ((∃ r ∈ (scrapeRun acc envs).1, r.name = n) ↔
        ((∃ r ∈ acc, r.name = n) ∨ (∃ r ∈ allAppended envs, r.name = n))) := by
  induction envs with
  | nil =>
    intro acc n _ _
    simp [scrapeRun, allAppended]
  | cons e es ih =>
    intro acc n hn h
    cases he : e.ends with
    | raised =>
      rw [scrapeRun_cons_raised acc e es he] at h
      simp at h
    | normal =>
      rw [scrapeRun_cons_normal acc e es he] at h ⊢
      rw [ih _ n hn h, allAppended_cons]
      constructor
      · rintro (hd | hrest)
        · rcases (dedupPass_exists_name n hn _).mp hd with ⟨x, hx, hxn⟩
          rcases List.mem_append.mp hx with h1 | h2
          · exact Or.inl ⟨x, h1, hxn⟩
          · exact Or.inr ⟨x, List.mem_append.mpr (Or.inl h2), hxn⟩
        · rcases hrest with ⟨x, hx, hxn⟩
          exact Or.inr ⟨x, List.mem_append.mpr (Or.inr hx), hxn⟩
      · rintro (hacc | hflat)
        · rcases hacc with ⟨x, hx, hxn⟩
          exact Or.inl ((dedupPass_exists_name n hn _).mpr
            ⟨x, List.mem_append.mpr (Or.inl hx), hxn⟩)
        · rcases hflat with ⟨x, hx, hxn⟩
          rcases List.mem_append.mp hx with h1 | h2
          · exact Or.inl ((dedupPass_exists_name n hn _).mpr
              ⟨x, List.mem_append.mpr (Or.inr h1), hxn⟩)
          · exact Or.inr ⟨x, h2, hxn⟩

/-- Peeling one chunk off the ceiling-division chunk count. -/
theorem numChunks_succ (s n : Nat) (hs : 0 < s) (hn : 0 < n) :
    (n + s - 1) / s = ((n - s) + s - 1) / s + 1 := by
  rcases Nat.le_total n s with h | h
  · have h1 : n - s = 0 := by omega
    rw [h1]
    have h2 : (0 + s - 1) / s = 0 := Nat.div_eq_of_lt (by omega)
    rw [h2]
    have h3 : n + s - 1 = (n - 1) + s := by omega
    rw [h3, Nat.add_div_right _ hs, Nat.div_eq_of_lt (by omega)]
  · have h3 : n + s - 1 = ((n - s) + s - 1) + s := by omega
    rw [h3, Nat.add_div_right _ hs]

/-- The chunker produces nothing from an empty row list. -/
theorem chunkSlices_nil (s : Nat) : chunkSlices s ([] : List α) = [] := by
  unfold chunkSlices
  match s with
  | 0 => simp
  | t + 1 =>
    simp only [List.length_nil]
    rw [Nat.div_eq_of_lt (by omega)]
    rfl

/-- Peeling the first chunk off a non-empty row list. -/
theorem chunkSlices_cons (s : Nat) (hs : 0 < s) (a : α) (l : List α) :
    chunkSlices s (a :: l) =
      (a :: l).take s :: chunkSlices s ((a :: l).drop s) := by
  unfold chunkSlices
  have hn : 0 < (a :: l).length := by simp
  rw [numChunks_succ s _ hs hn, List.length_drop,
    List.range_succ_eq_map, List.map_cons, List.map_map]
  congr 1
  · unfold chunkSlice
    simp only [Nat.zero_mul, List.drop_zero, Nat.zero_add, Nat.sub_zero]
    rcases Nat.le_total s (a :: l).length with h | h
    · rw [Nat.min_eq_left h]
    · rw [Nat.min_eq_right h, List.take_length, List.take_of_length_le h]
  · apply List.map_congr_left
    intro i hi
    have him : i < ((a :: l).length - s + s - 1) / s := List.mem_range.mp hi
    have hpos : 0 < ((a :: l).length - s + s - 1) / s := by omega
    have hge : s ≤ (a :: l).length - s + s - 1 :=
      (Nat.one_le_div_iff hs).mp hpos
    have hlen : s + 1 ≤ (a :: l).length := by omega
    show chunkSlice s (a :: l) (Nat.succ i) = chunkSlice s ((a :: l).drop s) i
    unfold chunkSlice
    rw [List.drop_drop, List.length_drop, Nat.succ_mul]
    generalize i * s = k
    rw [Nat.add_comm s k]
    congr 1
    omega

/-- Concatenating the chunk slices in file order reproduces the rows. -/
theorem chunkSlices_flatten (s : Nat) (hs : 0 < s) (rows : List α) :
    (chunkSlices s rows).flatten = rows := by
  match rows with
  | [] =>
    rw [chunkSlices_nil]
    rfl
  | a :: l =>
    rw [chunkSlices_cons s hs a l]
    simp only [List.flatten_cons]
    rw [chunkSlices_flatten s hs ((a :: l).drop s)]
    exact List.take_append_drop s (a :: l)
termination_by rows.length
decreasing_by
  simp only [List.length_drop, List.length_cons]
  omega

/-- The chunk count is the ceiling division of the row count. -/
theorem chunkSlices_length (s : Nat) (rows : List α) :
    (chunkSlices s rows).length = (rows.length + s - 1) / s := by
  simp [chunkSlices]

/-- The per-chunk row counts sum to the input row count. -/
theorem chunkSlices_sum_lengths (s : Nat) (hs : 0 < s) (rows : List α) :
    ((chunkSlices s rows).map List.length).sum = rows.length := by
  rw [← List.length_flatten, chunkSlices_flatten s hs]

/-- The rows of the chunk files are the chunk slices. -/
theorem chunk_results_rows (s : Nat) (hdr : List String) (rows : List α) :
    (chunk_results s hdr rows).map ChunkFile.rows = chunkSlices s rows := by
  unfold chunk_results chunkSlices
  rw [List.map_map]
  rfl

/-- Every chunk file carries the source header. -/
theorem chunk_results_header (s : Nat) (hdr : List String) (rows : List α) :
    ∀ f ∈ chunk_results s hdr rows, f.header = hdr := by
  intro f hf
  unfold chunk_results at hf
  rcases List.mem_map.mp hf with ⟨i, _, rfl⟩
  rfl

/-- The chunk files are named `chunk-1.csv`, `chunk-2.csv`, … in order. -/
theorem chunk_results_filenames (s : Nat) (hdr : List String) (rows : List α) :
    (chunk_results s hdr rows).map ChunkFile.filename =
      (List.range ((rows.length + s - 1) / s)).map
        (fun i => "chunk-" ++ toString (i + 1) ++ ".csv") := by
  unfold chunk_results
  rw [List.map_map]
  rfl

/-- Rewriting values at one key leaves lookups of a different key unchanged. -/
theorem find?_map_set_ne (r : Row) (k v k' : String) (h : k' ≠ k) :
    (r.map (fun p => if p.1 == k then (k, v) else p)).find? (fun p => p.1 == k') =
      r.find? (fun p => p.1 == k') := by
  induction r with
  | nil => rfl
  | cons p rest ih =>
    simp only [List.map_cons]
    by_cases hp : p.1 = k
    · rw [if_pos (beq_iff_eq.mpr hp)]
      rw [@List.find?_cons_of_neg _ (fun q => q.1 == k') (k, v) _
        (fun hc => h (beq_iff_eq.mp hc).symm)]
      rw [@List.find?_cons_of_neg _ (fun q => q.1 == k') p _
        (fun hc => h (by rw [← beq_iff_eq.mp hc]; exact hp))]
      exact ih
    · rw [if_neg (fun hc => hp (beq_iff_eq.mp hc))]
      by_cases hp' : (p.1 == k') = true
      · rw [@List.find?_cons_of_pos _ (fun q => q.1 == k') p _ hp',
          @List.find?_cons_of_pos _ (fun q => q.1 == k') p _ hp']
      · rw [@List.find?_cons_of_neg _ (fun q => q.1 == k') p _ hp',
          @List.find?_cons_of_neg _ (fun q => q.1 == k') p _ hp']
        exact ih

/-- `dictSet` at one key does not disturb `dictGet` at a different key. -/
theorem dictGet_dictSet_ne (r : Row) (k v k' d : String) (h : k' ≠ k) :
    dictGet (dictSet r k v) k' d = dictGet r k' d := by
  unfold dictSet
  by_cases hk : hasKey r k
  · rw [if_pos hk]
    unfold dictGet
    rw [find?_map_set_ne r k v k' h]
  · rw [if_neg hk]
    unfold dictGet
    rw [List.find?_append]
    have h1 : List.find? (fun p => p.1 == k') [(k, v)] = none := by
      simp only [List.find?_cons]
      rw [show ((k, v).1 == k') = false from
        beq_eq_false_iff_ne.mpr (fun hkk => h hkk.symm)]
      rfl
    rw [h1]
    cases r.find? (fun p => p.1 == k') <;> rfl

/-- A row without the key: `find?` for that key returns nothing. -/
theorem find?_eq_none_of_not_hasKey (r : Row) (k : String)
    (h : hasKey r k = false) : r.find? (fun p => p.1 == k) = none := by
  rw [List.find?_eq_none]
  intro p hp
  intro hpk
  have hany : r.any (fun p => p.1 == k) = true := List.any_eq_true.mpr ⟨p, hp, hpk⟩
  rw [hasKey] at h
  rw [hany] at h
  exact absurd h (by decide)

/-- Setting an absent key appends it, so a later lookup finds the new pair. -/
theorem find?_dictSet_self (r : Row) (k v : String) (h : hasKey r k = false) :
    (dictSet r k v).find? (fun p => p.1 == k) = some (k, v) := by
  unfold dictSet
  rw [if_neg (by rw [h]; exact Bool.false_ne_true)]
  rw [List.find?_append, find?_eq_none_of_not_hasKey r k h]
  simp [List.find?_cons]

/-- A row whose key list avoids `k` does not have key `k`. -/
theorem hasKey_eq_false_of_keys (r : Row) (k : String)
    (h : k ∉ r.map Prod.fst) : hasKey r k = false := by
  rw [hasKey]
  rw [List.any_eq_false]
  intro p hp
  intro hpk
  exact h (List.mem_map.mpr ⟨p, hp, beq_iff_eq.mp hpk⟩)

/-- The Enricher's output rows do not depend on the service's responses. -/
theorem agent2_rows_resp_indep (bs : Nat) (rows : List Row)
    (resp resp' : ServiceOracle) :
    (agent_2_enrichment bs rows resp).1 = (agent_2_enrichment bs rows resp').1 := by
  simp only [agent_2_enrichment]
  by_cases h : (rows.filter needsEnrichment).length = 0
  · rw [if_pos h, if_pos h]
  · rw [if_neg h, if_neg h]

/-- The Enricher's output rows keep every input row's `email` value. -/
theorem agent2_email_preserved (bs : Nat) (rows : List Row)
    (resp : ServiceOracle) :
    (agent_2_enrichment bs rows resp).1.map (fun r => dictGet r "email" "") =
      rows.map (fun r => dictGet r "email" "") := by
  simp only [agent_2_enrichment]
  by_cases h : (rows.filter needsEnrichment).length = 0
  · rw [if_pos h]
    dsimp only
    rw [List.map_map]
    apply List.map_congr_left
    intro r _
    exact dictGet_dictSet_ne r "extra_emails" "" "email" "" (by decide)
  · rw [if_neg h]
    dsimp only
    rw [List.map_map]
    apply List.map_congr_left
    intro r _
    show dictGet (if hasKey r "extra_emails" = true then r
      else dictSet r "extra_emails" "") "email" "" = dictGet r "email" ""
    by_cases hk : hasKey r "extra_emails" = true
    · rw [if_pos hk]
    · rw [if_neg hk]
      exact dictGet_dictSet_ne r "extra_emails" "" "email" "" (by decide)

/-! ## The claims -/

/-- C1 (counterexample): the input row is selected for enrichment, its batch
call succeeds, and the answer names the email `jane@janedoe.example` — yet the
output row's `email` field is still empty, so the Enricher does not merge the
service's answer back into the record. -/
theorem C1_counterexample :
    [rowJane].filter needsEnrichment = [rowJane] ∧
    respFound 0 = Except.ok respFoundText ∧
    containsSub respFoundText "jane@janedoe.example" = true ∧
    (agent_2_enrichment 20 [rowJane] respFound).1.map
      (fun r => dictGet r "email" "") = [""] :=
  ⟨by decide, rfl, by decide, by decide⟩

/-- C1 (amended): the Enricher never merges the service's answers into the
rows: its output rows are independent of the service's responses, and every
row — selected for enrichment or not — passes through with its input `email`
value unchanged (the answers are only saved to per-batch diagnostic files). -/
theorem C1_enricher_passthrough (bs : Nat) (rows : List Row)
    (resp resp' : ServiceOracle) :
    (agent_2_enrichment bs rows resp).1 = (agent_2_enrichment bs rows resp').1 ∧
    (agent_2_enrichment bs rows resp).1.map (fun r => dictGet r "email" "") =
      rows.map (fun r => dictGet r "email" "") :=
  ⟨agent2_rows_resp_indep bs rows resp resp', agent2_email_preserved bs rows resp⟩

/-- Lower and upper bound pinning the chunk count as the ceiling of `N / S`. -/
theorem chunkSlices_bounds (s : Nat) (hs : 0 < s) (rows : List α) :
    rows.length ≤ (chunkSlices s rows).length * s ∧
    (chunkSlices s rows).length * s < rows.length + s := by
  match rows with
  | [] =>
    rw [chunkSlices_nil]
    simpa using hs
  | a :: l =>
    rw [chunkSlices_cons s hs a l]
    rcases Nat.le_total (a :: l).length s with hle | hge
    · have hdrop : (a :: l).drop s = [] := List.drop_eq_nil_of_le hle
      rw [hdrop, chunkSlices_nil]
      simp only [List.length_cons, List.length_nil, Nat.zero_add, Nat.one_mul]
        at hle ⊢
      omega
    · have hrec := chunkSlices_bounds s hs ((a :: l).drop s)
      rw [List.length_drop] at hrec
      simp only [List.length_cons] at hrec hge ⊢
      rw [Nat.succ_mul]
      generalize (chunkSlices s ((a :: l).drop s)).length * s = t at hrec ⊢
      omega
termination_by rows.length
decreasing_by
  simp only [List.length_drop, List.length_cons]
  omega

/-- C2: chunking `N` rows with chunk size `S > 0` yields `⌈N/S⌉` files (the
count `(N + S - 1) / S`, pinned as the ceiling by the two bounds), whose
per-file row counts sum to `N`, which all carry the source header, are named
`chunk-1.csv`, `chunk-2.csv`, … in order, and whose concatenated rows in file
order reproduce the input row order. -/
theorem C2_chunker_spec {α : Type} (s : Nat) (hdr : List String)
    (rows : List α) (hs : 0 < s) :
    (chunk_results s hdr rows).length = (rows.length + s - 1) / s ∧
    rows.length ≤ (chunk_results s hdr rows).length * s ∧
    (chunk_results s hdr rows).length * s < rows.length + s ∧
    (((chunk_results s hdr rows).map ChunkFile.rows).map List.length).sum =
      rows.length ∧
    ((chunk_results s hdr rows).map ChunkFile.rows).flatten = rows ∧
    (∀ f ∈ chunk_results s hdr rows, f.header = hdr) ∧
    (chunk_results s hdr rows).map ChunkFile.filename =
      (List.range ((rows.length + s - 1) / s)).map
        (fun i => "chunk-" ++ toString (i + 1) ++ ".csv") := by
  have hlen : (chunk_results s hdr rows).length = (chunkSlices s rows).length := by
    rw [← chunk_results_rows s hdr rows, List.length_map]
  refine ⟨?_, ?_, ?_, ?_, ?_, ?_, ?_⟩
  · rw [hlen, chunkSlices_length]
  · rw [hlen]
    exact (chunkSlices_bounds s hs rows).1
  · rw [hlen]
    exact (chunkSlices_bounds s hs rows).2
  · rw [chunk_results_rows]
    exact chunkSlices_sum_lengths s hs rows
  · rw [chunk_results_rows]
    exact chunkSlices_flatten s hs rows
  · exact chunk_results_header s hdr rows
  · exact chunk_results_filenames s hdr rows

/-- C2 (witness): the chunker specification evaluated on a five-row CSV with
chunk size two. -/
theorem C2_witness :
    0 < 2 ∧
    (chunk_results 2 ["name", "phone"] [10, 20, 30, 40, 50]).length =
      (([10, 20, 30, 40, 50] : List Nat).length + 2 - 1) / 2 ∧
    ((chunk_results 2 ["name", "phone"] [10, 20, 30, 40, 50]).map
      ChunkFile.rows).flatten = [10, 20, 30, 40, 50] :=
  ⟨by decide,
   (C2_chunker_spec 2 ["name", "phone"] [10, 20, 30, 40, 50] (by decide)).1,
   (C2_chunker_spec 2 ["name", "phone"] [10, 20, 30, 40, 50] (by decide)).2.2.2.2.1⟩

/-- C3 (counterexample): a run that appends one parsed record and then hits the
exception handler leaves behind a CSV whose rows are that record — not an
empty CSV with only the header. -/
theorem C3_counterexample :
    scrapeRaised envsPartial = true ∧
    scrapeFinalCsv envsPartial = { header := scraperHeader, rows := [janeDoe] } ∧
    (scrapeFinalCsv envsPartial).rows ≠ [] :=
  ⟨by decide, by decide, by decide⟩

/-- C3 (amended): when an unhandled exception reaches `scrape`'s handler, a
header-only CSV is written at that moment, but the unconditional final save
then rewrites the file with the records accumulated before the exception, so
the file left behind has the expected header with those rows (header-only
exactly when nothing had been accumulated). -/
theorem C3_exception_writes (envs : List LetterEnv)
    (h : scrapeRaised envs = true) :
    scrapeWrites envs =
      [{ header := scraperHeader, rows := [] },
       { header := scraperHeader, rows := scrapeRows envs }] ∧
    (scrapeFinalCsv envs).header = scraperHeader ∧
    (scrapeFinalCsv envs).rows = scrapeRows envs := by
  refine ⟨?_, rfl, rfl⟩
  unfold scrapeWrites
  rw [if_pos h]

/-- C3 (witness): the amended statement evaluated on the one-letter run that
accumulates a record and then raises. -/
theorem C3_witness :
    scrapeRaised envsPartial = true ∧
    scrapeWrites envsPartial =
      [{ header := scraperHeader, rows := [] },
       { header := scraperHeader, rows := scrapeRows envsPartial }] :=
  ⟨by decide, (C3_exception_writes envsPartial (by decide)).1⟩

set_option maxRecDepth 20000 in
/-- C4: on the payload `{"d": "<div class=\"realtorCard\"><span
class=\"realtorCardName\">Jane Doe</span><span
class=\"TelephoneNumber\">555-1234</span></div>"}`, the fragment parser
returns exactly one record `{name: "Jane Doe", phone: "555-1234", email: "",
website: ""}`. -/
theorem C4_fragment_extraction :
    extract_realtors_from_json payloadC4 =
      [{ name := "Jane Doe", phone := "555-1234", email := "", website := "" }] := by
  decide

/-- C5 (counterexample): a run that appends the same parsed record twice and
then hits the exception handler before the per-letter dedup writes two rows
with the same non-empty name. -/
theorem C5_counterexample :
    ((scrapeRows envsDupRaised).map Realtor.name).count "Jane Doe" = 2 ∧
    "Jane Doe" ≠ "" :=
  ⟨by decide, by decide⟩

/-- C5 (amended): in every run that never hits the exception handler, the
written row list carries at most one row per non-empty name. -/
theorem C5_no_exception_dedup (envs : List LetterEnv)
    (h : scrapeRaised envs = false) (n : String) (_hn : n ≠ "") :
    ((scrapeRows envs).map Realtor.name).count n ≤ 1 := by
  have hok := scrapeRun_no_raise_names_ok envs [] h ⟨List.nodup_nil, by simp⟩
  exact List.nodup_iff_count_le_one.mp hok.1 n

/-- C5 (witness): the amended statement evaluated on a normal one-letter run. -/
theorem C5_witness :
    scrapeRaised envsDupNormal = false ∧
    ((scrapeRows envsDupNormal).map Realtor.name).count "Jane Doe" ≤ 1 :=
  ⟨by decide, C5_no_exception_dedup envsDupNormal (by decide) "Jane Doe" (by decide)⟩

set_option maxRecDepth 20000 in
/-- C6 (counterexample): the fragment parser yields two records sharing the
name "Jane Doe"; in a normal run the second one — despite its non-empty
name — is absent from the written output, because the dedup pass kept only the
first. -/
theorem C6_counterexample :
    extract_realtors_from_json payloadDupName = [janeA, janeB] ∧
    janeB.name ≠ "" ∧
    janeB ∉ scrapeRows envsDupNormal :=
  ⟨by decide, by decide, by decide⟩

/-- C6 (amended): in a run that never hits the exception handler, every
written record has a non-empty name, the fragment parser only emits records
with non-empty names, and a non-empty name occurs among the written records
iff it occurs among the parsed records — but a parsed record itself may be
dropped when an earlier record carries the same name. -/
theorem C6_inclusion (envs : List LetterEnv) (h : scrapeRaised envs = false) :
    (∀ r ∈ scrapeRows envs, r.name ≠ "") ∧
    (∀ data : PyVal, ∀ r ∈ extract_realtors_from_json data, r.name ≠ "") ∧
    (∀ n : String, n ≠ "" →
      ((∃ r ∈ scrapeRows envs, r.name = n) ↔
        (∃ r ∈ allAppended envs, r.name = n))) := by
  refine ⟨?_, ?_, ?_⟩
  · intro r hr
    exact (scrapeRun_no_raise_names_ok envs [] h ⟨List.nodup_nil, by simp⟩).2 r hr
  · intro data r hr
    unfold extract_realtors_from_json at hr
    cases data with
    | pystr s => exact absurd hr (List.not_mem_nil r)
    | pyother => exact absurd hr (List.not_mem_nil r)
    | pydict entries =>
      dsimp only at hr
      cases hfind : findHtmlContent entries with
      | none =>
        rw [hfind] at hr
        exact absurd hr (List.not_mem_nil r)
      | some html =>
        rw [hfind] at hr
        dsimp only at hr
        have hbne := (List.mem_filter.mp hr).2
        exact bne_iff_ne.mp hbne
  · intro n hn
    have := scrapeRun_no_raise_names envs [] n hn h
    simpa using this

/-- C6 (witness): the amended statement evaluated on a normal one-letter run
with a duplicated name. -/
theorem C6_witness :
    scrapeRaised envsDupNormal = false ∧
    ((∃ r ∈ scrapeRows envsDupNormal, r.name = "Jane Doe") ↔
      (∃ r ∈ allAppended envsDupNormal, r.name = "Jane Doe")) :=
  ⟨by decide, (C6_inclusion envsDupNormal (by decide)).2.2 "Jane Doe" (by decide)⟩

/-- C7: the name-based dedup pass is idempotent — running it on its own output
returns that output unchanged. -/
theorem C7_dedup_idempotent (l : List Realtor) :
    dedupPass (dedupPass l) = dedupPass l :=
  dedupPass_idem l

/-- C8: whenever agent 1 returns normally, `RealtorScraperOrchestrator.run`
raises `NameError` for the unbound local `enrichment_output` (the enrichment
and completion calls that would bind it are commented out) and never completes
normally. -/
theorem C8_run_always_raises (s : String) :
    orchestratorRun (Except.ok s) =
      Except.error (PyErr.nameError "enrichment_output") ∧
    orchestratorRun (Except.ok s) ≠ Except.ok () := by
  constructor
  · rfl
  · intro hcontra
    have h1 : orchestratorRun (Except.ok s) =
        Except.error (PyErr.nameError "enrichment_output") := rfl
    rw [h1] at hcontra
    exact absurd hcontra (by simp)

/-- C9: the dedup pass returns exactly the first-occurrence-per-non-empty-name
subsequence of its input: each record whose name is non-empty and not carried
by any earlier kept record, in input order. -/
theorem C9_dedup_first_occurrence (l : List Realtor) :
    dedupPass l = keepFirstByName l ∧ (dedupPass l).Sublist l :=
  ⟨by rw [dedupPass_eq_dedupAux]; exact dedupAux_nil_eq_keepFirst l,
   dedupPass_sublist l⟩

/-- C10: when every input row has exactly the columns
`name,phone,email,website,extra_emails`, every row of the Completer's output
has its `confidence` field equal to `"1.0"`, for any batch size and any
service responses. -/
theorem C10_confidence_constant (bs : Nat) (rows : List Row)
    (resp : ServiceOracle)
    (hcols : ∀ r ∈ rows, r.map Prod.fst = enricherHeader) :
    ∀ out ∈ (agent_3_completion bs rows resp).1,
      out.find? (fun p => p.1 == "confidence") = some ("confidence", "1.0") := by
  intro out hout
  have hset : ∀ r ∈ rows,
      (dictSet r "confidence" "1.0").find? (fun p => p.1 == "confidence") =
        some ("confidence", "1.0") := by
    intro r hr
    apply find?_dictSet_self
    apply hasKey_eq_false_of_keys
    rw [hcols r hr]
    decide
  simp only [agent_3_completion] at hout
  by_cases h : (rows.filter needsCompletion).length = 0
  · rw [if_pos h] at hout
    dsimp only at hout
    rcases List.mem_map.mp hout with ⟨r, hr, rfl⟩
    exact hset r hr
  · rw [if_neg h] at hout
    dsimp only at hout
    rcases List.mem_map.mp hout with ⟨r, hr, rfl⟩
    have hk : hasKey r "confidence" = false := by
      apply hasKey_eq_false_of_keys
      rw [hcols r hr]
      decide
    rw [if_neg (by rw [hk]; exact Bool.false_ne_true)]
    exact hset r hr

/-- C10 (witness): the Completer evaluated on a concrete five-column row. -/
theorem C10_witness :
    (∀ r ∈ [rowJane5], r.map Prod.fst = enricherHeader) ∧
    (∀ out ∈ (agent_3_completion 20 [rowJane5] respFound).1,
      out.find? (fun p => p.1 == "confidence") = some ("confidence", "1.0")) :=
  ⟨by decide, C10_confidence_constant 20 [rowJane5] respFound (by decide)⟩

end RealtorSearch
